import Mathlib

/-!
Shallow embedding of `src/lib/run_util.py` (M5 run utility): configuration
values and their combinator, the batch partitioner, the failure-reporting
process wrapper, the local executor, the cluster batch submitter and the
run-wide mutable state.  External effects (process launches, file writes,
directory creation, printing) are recorded as an explicit effect trace;
machine-level concerns (actual process scheduling) are out of the model.
-/

namespace RunUtil

/-- Embeds class `Config` (run_util.py:142-152): a test configuration,
consisting of a name and a list of command line arguments. -/
structure Config where
  name : String
  args : List String
deriving Repr, DecidableEq

/-- Embeds `Config.__add__` (run_util.py:148-149): fuse names with a dash
and concatenate argument lists. -/
def Config.add (a b : Config) : Config :=
  { name := a.name ++ "-" ++ b.name, args := a.args ++ b.args }

instance : Add Config := ⟨Config.add⟩

/-- Embeds `cross` (run_util.py:182-195) restricted to list arguments (the
`isinstance(confs, Config)` singleton wrapping is not needed by any claim).
Python's generator raises `IndexError` on `config_lists[0]` when called with
zero lists; fallible behaviour is modelled with `Except`. -/
def cross : List (List Config) → Except String (List Config)
  | [] => Except.error "IndexError"
  | [confs] => Except.ok confs
  | confs :: rest => do
    let rs ← cross rest
    pure (confs.flatMap fun c => rs.map fun rc => c + rc)

/-- Embeds `pipes.quote` (Python 2 stdlib): the set of shell-safe characters. -/
def safeChar (c : Char) : Bool :=
  c.isAlpha || c.isDigit || "@%_-+=:,./".contains c

/-- Embeds `pipes.quote` (Python 2 stdlib), used as `quote` throughout
run_util.py: return the argument unchanged when every character is safe,
else wrap in single quotes, escaping embedded single quotes. -/
def quoteArg (file : String) : String :=
  if file = "" then "\x27\x27"
  else if file.all safeChar then file
  else "\x27" ++ (file.replace "\x27" "\x27\"\x27\"\x27") ++ "\x27"

/-- Run-wide settings (run_util.py:21-30), holding the post-`expandvars`
values the setters (`global_prefix`, `global_args`, `m5_path`, `m5_args`,
`se_path`, `after_cmd`) store; field names follow the globals with the
leading underscore dropped (`_prefix` is rendered `prefixVal`). -/
structure Settings where
  prefixVal : String
  globalArgs : List String
  m5Path : String
  m5Args : List String
  sePath : String
  afterCmd : Option (List String)
  submitCommand : String
deriving Repr, DecidableEq

/-- The default values of the module-level settings (run_util.py:21-28),
with `$HOME` left unexpanded (environment expansion is outside the model). -/
def defaultSettings : Settings :=
  { prefixVal := ""
    globalArgs := []
    m5Path := "m5/build/ALPHA_SE/m5.opt"
    m5Args := ["--remote-gdb-port=0", "-re"]
    sePath := "$HOME/m5/configs/example/se.py"
    afterCmd := none
    submitCommand := "qsub" }

/-- Embeds `_env_values` (run_util.py:158-159): the per-run environment. -/
def envValues (pfx : String) (c : Config) : List (String × String) :=
  [("CONF_NAME", c.name), ("CONF_DIR", pfx ++ c.name)]

/-- Embeds `_env_string` (run_util.py:155-156).  Python 2 dict iteration
order is unspecified; the model fixes insertion order (`CONF_NAME` first). -/
def envString (pfx : String) (c : Config) : String :=
  String.intercalate " " ((envValues pfx c).map fun p => p.1 ++ "=" ++ quoteArg p.2)

/-- Embeds `_command_line` (run_util.py:164-168). -/
def commandLine (st : Settings) (c : Config) : List String :=
  [st.m5Path] ++ st.m5Args ++ ["--outdir=" ++ st.prefixVal ++ c.name] ++
    [st.sePath] ++ st.globalArgs ++ c.args

/-- Embeds `_command_string` (run_util.py:161-162). -/
def commandString (st : Settings) (c : Config) : String :=
  String.intercalate " " ((commandLine st c).map quoteArg)

/-- Embeds Python `%`-interpolation of one after-command argument
(run_util.py:170-172) restricted to the two documented placeholders
`%(prefix)s` and `%(config_names)s`. -/
def renderAfterArg (pfxVal names arg : String) : String :=
  (arg.replace "%(prefix)s" pfxVal).replace "%(config_names)s" names

/-- Embeds `_after_cmd_args` (run_util.py:170-172); only invoked when an
after-command template is configured (`afterCmd = some _`). -/
def afterCmdArgs (st : Settings) (configs : List Config) : List String :=
  (st.afterCmd.getD []).map
    (renderAfterArg st.prefixVal (String.intercalate " " (configs.map Config.name)))

/-- Embeds `_make_dirs` (run_util.py:174-179): the directory path handed to
`os.makedirs` (creation failure is ignored by the source). -/
def makeDirsPath (p : String) : String :=
  String.intercalate "/" ((p.splitOn "/").dropLast)

/-- Embeds `_pbs_header` (run_util.py:37-50). -/
def pbsHeader : String :=
  "#!/bin/bash\n#PBS -l nodes=1:ppn=12\n#PBS -l pvmem=2000MB\n#PBS -l walltime=3:00:00\n#PBS -m a\n#PBS -q default\n\necho Running on host `hostname -s`\nexport M5_CPU2000=~/m5files/cpu2000\nmodule load gcc/4.4.3\n\ncd $PBS_O_WORKDIR\n\n"

/-- Embeds Python `'%02d' % i` for a natural `i` (run_util.py:280). -/
def format02d (i : Nat) : String :=
  if i < 10 then "0" ++ toString i else toString i

/-- Embeds `tail -n6` on the error-log contents (run_util.py:67): the last
six lines of the log, each followed by a newline. -/
def tail6 (lines : List String) : String :=
  String.join ((lines.drop (lines.length - 6)).map fun l => l ++ "\n")

/-- Embeds `Popen_reporting.wait` (run_util.py:62-77).  The child's exit
status is `returncode`; `config_dir` is `none` when no error-log directory
was supplied and otherwise carries the lines of `<dir>/simerr` (the model of
the external `tail` process's input).  `signalNames` models the host's
`_signal_names` dict (run_util.py:52-53).  Returns the exit code together
with the strings written to the diagnostic stream (stderr), in order. -/
def Popen_reporting_wait (signalNames : Int → Option String) (config_name : String)
    (config_dir : Option (List String)) (returncode : Int) : Int × List String :=
  if returncode ≠ 0 then
    let errors : String :=
      match config_dir with
      | some logLines => tail6 logLines
      | none => ""
    let msg : String :=
      if returncode < 0 then
        config_name ++ " was terminated by signal " ++
          ((signalNames (-returncode)).getD "???") ++ " (" ++ toString (-returncode) ++ ")."
      else
        config_name ++ " returned error " ++ toString returncode ++ "."
    (returncode, [msg ++ "\n", "Last messages from " ++ config_name ++ ":\n" ++ errors ++ "\n"])
  else
    (returncode, [])

/-- The loop of `_divide_equally` (run_util.py:247-253), iterating
`xrange(nlists)` (hence `nlists.toNat` iterations), recomputing
`group_len = nitems // nlists` each round and consuming one unit of the
surplus `nlong` while it is non-zero.  On every reachable iteration
`nlists ≥ 1` (otherwise `xrange` is empty), so `group_len ≥ 0` and Python's
`items[:group_len]`/`items[group_len:]` slicing is `take`/`drop` at
`group_len.toNat`. -/
def divideLoop {α : Type} (nitems nlists : Int) : Nat → List α → Int → List (List α)
  | 0, _, _ => []
  | k + 1, items, nlong =>
    let group_len : Int := Int.fdiv nitems nlists
    let p : Int × Int := if nlong ≠ 0 then (group_len + 1, nlong - 1) else (group_len, nlong)
    items.take p.1.toNat :: divideLoop nitems nlists k (items.drop p.1.toNat) p.2

/-- Embeds `_divide_equally` (run_util.py:237-253).  Python floor division
`//` and `%` on ints are `Int.fdiv`/`Int.fmod`; a zero divisor raises
`ZeroDivisionError`, modelled with `Except.error`. -/
def divide_equally {α : Type} (items : List α) (max_len : Int) :
    Except String (List (List α)) :=
  let nitems : Int := items.length
  if max_len = 0 then Except.error "ZeroDivisionError"
  else
    let nlists := Int.fdiv (nitems + max_len - 1) max_len
    if nlists = 0 then Except.error "ZeroDivisionError"
    else Except.ok (divideLoop nitems nlists nlists.toNat items (Int.fmod nitems nlists))

/-- Embeds class `stats` (run_util.py:92-96): the process-wide counters
(`start_time` is wall-clock state outside the model). -/
structure Stats where
  ran : Nat
  submitted : Nat
  jobs : Nat
deriving Repr, DecidableEq

/-- One observable external effect of the executor or submitter. -/
inductive Effect where
  | launch (args : List String)
  | launchStdin (args : List String) (stdin : String)
  | writeFile (path : String) (content : String)
  | makeDirs (path : String)
  | printOut (s : String)
deriving Repr, DecidableEq

/-- The mutable module state the executor and submitter consult: the
settings, whether the global name `Popen_reporting` has been rebound to
`dummy_Popen` (run_util.py:89), and `_dry_run_mode` (run_util.py:90). -/
structure RunState where
  settings : Settings
  popenIsDummy : Bool
  dryRunMode : Bool
deriving Repr, DecidableEq

/-- Embeds `dry_run` (run_util.py:84-90): a no-op when `--no-dry` occurs in
`sys.argv`, otherwise rebinds `Popen_reporting` to `dummy_Popen` and sets
`_dry_run_mode`. -/
def dry_run (argv : List String) (st : RunState) : RunState :=
  if argv.contains "--no-dry" then st
  else { st with popenIsDummy := true, dryRunMode := true }

/-- The launch effects of one `Popen_reporting(args, ...)` call under the
current binding of the name: the real class records a launch of `args`;
`dummy_Popen` (run_util.py:80-82) prints the shell-quoted command line and
launches `['true']`. -/
def launchEffects (st : RunState) (args : List String) : List Effect :=
  if st.popenIsDummy then
    [Effect.printOut (String.intercalate " " (args.map quoteArg) ++ "\n"),
     Effect.launch ["true"]]
  else
    [Effect.launch args]

/-- Embeds `_run_configs_all` (run_util.py:205-213), the `max_parallel == 0`
path: make the output directories, launch every configuration's process,
wait on each (incrementing `stats.ran` per completion), then launch and wait
on the after-command when one is configured. -/
def run_configs_all (st : RunState) (configs : List Config) (s : Stats) :
    Stats × List Effect :=
  let launches := configs.flatMap fun c => launchEffects st (commandLine st.settings c)
  let afterEff :=
    match st.settings.afterCmd with
    | some _ => launchEffects st (afterCmdArgs st.settings configs)
    | none => []
  ({ s with ran := s.ran + configs.length },
   Effect.makeDirs (makeDirsPath st.settings.prefixVal) :: launches ++ afterEff)

/-- Embeds `run_configs` (run_util.py:216-234).  `max_parallel == 0`
dispatches to `_run_configs_all`; the bounded path admits configurations in
input order through a semaphore, spawning a thread per configuration and
incrementing `stats.ran` at spawn time in the main thread, draining the
semaphore before the after-command.  Thread interleaving is abstracted: the
trace lists each configuration's launch effects in admission order, and the
counter update is the main thread's, which is exact. -/
def run_configs (st : RunState) (configs : List Config) (max_parallel : Nat)
    (s : Stats) : Stats × List Effect :=
  if max_parallel = 0 then run_configs_all st configs s
  else
    let launches := configs.flatMap fun c => launchEffects st (commandLine st.settings c)
    let afterEff :=
      match st.settings.afterCmd with
      | some _ => launchEffects st (afterCmdArgs st.settings configs)
      | none => []
    ({ s with ran := s.ran + configs.length },
     Effect.makeDirs (makeDirsPath st.settings.prefixVal) :: launches ++ afterEff)

/-- The after-command line rendered for one batch (run_util.py:273). -/
def afterCmdline (st : Settings) (job : List Config) : String :=
  String.intercalate " " ((afterCmdArgs st job).map quoteArg) ++ "\n"

/-- The batch script rendered for one group (run_util.py:265-267): header,
one backgrounded env+command line per configuration, trailing `wait`. -/
def renderPbs (st : Settings) (job : List Config) : String :=
  pbsHeader ++
    String.intercalate "\n"
      (job.map fun c => envString st.prefixVal c ++ " " ++ commandString st c ++ " &") ++
    "\n\nwait\n"

/-- The loop body of `submit_configs` (run_util.py:264-305) for group index
`i` holding configurations `job`, with `jobId` the text the queue command
printed for the main submission: render the script (and the after-script
when an after-command is configured — `after_in_new_job` is the constant
`True`), then in dry-run mode print the job name and script, else
optionally persist both scripts, submit the main script, print the returned
job identifier, and submit the after-script with an `afterany` dependency
on the stripped identifier.  Counter updates are accounted in
`submit_configs`. -/
def submit_one_group (st : RunState) (name : String) (save_pbs : Bool)
    (jobId : String) (i : Nat) (job : List Config) : List Effect :=
  let pbs := renderPbs st.settings job
  let after_pbs : Option String :=
    st.settings.afterCmd.map fun _ => pbsHeader ++ "\n" ++ afterCmdline st.settings job
  let job_name := name ++ "." ++ format02d i
  if st.dryRunMode then
    [Effect.printOut ("Job " ++ job_name ++ "\n"), Effect.printOut (pbs ++ "\n")]
  else
    (if save_pbs then
      Effect.writeFile (job_name ++ ".pbs") pbs ::
        (match after_pbs with
         | some ap => [Effect.writeFile (job_name ++ "a.pbs") ap]
         | none => [])
     else []) ++
    [Effect.launchStdin [st.settings.submitCommand, "-N", job_name, "-"] pbs,
     Effect.printOut (jobId ++ "\n")] ++
    (match after_pbs with
     | some ap =>
       [Effect.launchStdin
         [st.settings.submitCommand, "-W", "depend=afterany:" ++ jobId.trim, "-N",
          job_name ++ "a", "-"] ap]
     | none => [])

/-- Embeds `submit_configs` (run_util.py:256-305).  `queueIds k` models the
text printed on stdout by the queue command for the `k`-th main submission
(= group index `k`; in dry-run mode none is consumed).  `count_subs`
(run_util.py:260-262) increments `stats.submitted` once per configuration
while each group's script is rendered — before the dry-run test — and
`stats.jobs` is incremented once per group, also before the dry-run test. -/
def submit_configs (st : RunState) (queueIds : Nat → String) (configs : List Config)
    (name : String) (per_job : Int) (save_pbs : Bool) (s : Stats) :
    Except String (Stats × List Effect) := do
  let groups ← divide_equally configs per_job
  pure ({ s with
            submitted := s.submitted + (groups.map List.length).sum,
            jobs := s.jobs + groups.length },
        Effect.makeDirs (makeDirsPath st.settings.prefixVal) ::
          groups.enum.flatMap fun p => submit_one_group st name save_pbs (queueIds p.1) p.1 p.2)

/-- Helper: the partition loop over naturals, to which `divideLoop`
reduces on the reachable states (`nitems = n ≥ 0`, `nlists = g ≥ 1`,
`nlong = r ≥ 0`); `q` is the constant `nitems // nlists`. -/
def divideLoopNat {α : Type} (q : Nat) : Nat → List α → Nat → List (List α)
  | 0, _, _ => []
  | k + 1, items, r =>
    let len := if r ≠ 0 then q + 1 else q
    items.take len :: divideLoopNat q k (items.drop len) (r - 1)

/-- Helper: whether an effect launches an external process. -/
def Effect.isLaunch : Effect → Bool
  | .launch _ => true
  | .launchStdin _ _ => true
  | _ => false

/-- Helper: whether an effect writes a file. -/
def Effect.isWrite : Effect → Bool
  | .writeFile _ _ => true
  | _ => false

/-- Helper: a dry-run state (what `dry_run()` leaves of the defaults). -/
def dryState : RunState :=
  { settings := defaultSettings, popenIsDummy := true, dryRunMode := true }

/-- Helper: a live state with an after-command configured. -/
def liveAfterState : RunState :=
  { settings := { defaultSettings with afterCmd := some ["echo", "%(config_names)s"] }
    popenIsDummy := false
    dryRunMode := false }

/-! ## Theorems -/

/-- Claim C8: the Configuration combine operator is associative — for all
Configurations A, B, C, (A + B) + C equals A + (B + C) in both name and
args — but not commutative: there exist Configurations A, B with A + B not
equal to B + A. -/
theorem claim_C8_add_assoc_not_comm :
    (∀ a b c : Config, a + b + c = a + (b + c)) ∧
    (∃ a b : Config, a + b ≠ b + a) := by
  constructor
  · intro a b c
    show Config.add (Config.add a b) c = Config.add a (Config.add b c)
    simp [Config.add, String.append_assoc]
  · exact ⟨⟨"a", []⟩, ⟨"b", []⟩, by decide⟩

/-- Claim C10: if the process command line (`sys.argv`) contains the string
`--no-dry`, then calling `dry_run()` has no effect: the dry-run flag stays
as it was (false) and the real reporting process launcher stays in place,
so subsequent executor and submitter calls behave as live calls. -/
theorem claim_C10_no_dry (argv : List String) (st : RunState)
    (h : "--no-dry" ∈ argv) :
    dry_run argv st = st ∧
    (dry_run argv st).dryRunMode = st.dryRunMode ∧
    (dry_run argv st).popenIsDummy = st.popenIsDummy := by
  refine ⟨?_, ?_, ?_⟩ <;> simp [dry_run, h]

/-- Witness for C10 at a concrete argv and state. -/
theorem claim_C10_no_dry_witness :
    dry_run ["run.py", "--no-dry"] ⟨defaultSettings, false, false⟩ =
      ⟨defaultSettings, false, false⟩ :=
  (claim_C10_no_dry ["run.py", "--no-dry"] ⟨defaultSettings, false, false⟩
    (by simp)).1

/-- Claim C3: `Popen_reporting.wait` classifies the child's exit code: on
exit 0 it writes nothing and returns the code; on c > 0 it writes
`<label> returned error <c>.` followed by the trailing-log report (the last
6 lines of the per-run error log, the empty string when no log path was
given); on c < 0 it writes `<label> was terminated by signal <NAME> (<N>).`
followed by the same report; in every case it returns the exit code. -/
theorem claim_C3_wait_reporting (signalNames : Int → Option String)
    (label : String) (errlog : Option (List String)) (c : Int) :
    (Popen_reporting_wait signalNames label errlog c).1 = c ∧
    (c = 0 → (Popen_reporting_wait signalNames label errlog c).2 = []) ∧
    (0 < c → (Popen_reporting_wait signalNames label errlog c).2 =
      [label ++ " returned error " ++ toString c ++ ".\n",
       "Last messages from " ++ label ++ ":\n" ++
         ((errlog.map tail6).getD "") ++ "\n"]) ∧
    (c < 0 → (Popen_reporting_wait signalNames label errlog c).2 =
      [label ++ " was terminated by signal " ++ ((signalNames (-c)).getD "???") ++
         " (" ++ toString (-c) ++ ").\n",
       "Last messages from " ++ label ++ ":\n" ++
         ((errlog.map tail6).getD "") ++ "\n"]) := by
  unfold Popen_reporting_wait
  refine ⟨?_, ?_, ?_, ?_⟩
  · split <;> rfl
  · intro h0; simp [h0]
  · intro hpos
    have hne : c ≠ 0 := by omega
    have hnneg : ¬ c < 0 := by omega
    have hd : "." ++ "\n" = ".\n" := rfl
    cases errlog <;> simp [hne, hnneg, hd, String.append_assoc]
  · intro hneg
    have hne : c ≠ 0 := by omega
    have hd : ")." ++ "\n" = ").\n" := rfl
    cases errlog <;> simp [hne, hneg, hd, String.append_assoc]

/-- Witness for C3 at exit code 3 with no log path. -/
theorem claim_C3_wait_reporting_witness :
    (Popen_reporting_wait (fun _ => none) "cfg" none 3).2 =
      ["cfg returned error 3.\n", "Last messages from cfg:\n\n"] := by
  have h := (claim_C3_wait_reporting (fun _ => none) "cfg" none 3).2.2.1
    (by norm_num)
  simpa using h

/-- Claim C9, counterexample: a negative `max_len` does not raise — the
partitioner silently yields an empty group sequence (here for ten items and
`max_len = -1`), exactly the degenerate output the claim rules out. -/
theorem claim_C9_counterexample :
    divide_equally (List.range 10) (-1 : Int) = Except.ok ([] : List (List Nat)) :=
  rfl

/-- Claim C9 as amended: an empty item sequence (with positive `max_len`)
and `max_len = 0` raise `ZeroDivisionError` when the partition is consumed,
and `cross` with zero lists raises `IndexError`; but a non-positive
(negative) `max_len` does not fail fast — it silently produces an empty
group sequence. -/
theorem claim_C9_amended (maxLen : Int) (hm : 1 ≤ maxLen) :
    divide_equally ([] : List Config) maxLen = Except.error "ZeroDivisionError" ∧
    (∀ items : List Config, divide_equally items (0 : Int) =
      Except.error "ZeroDivisionError") ∧
    cross [] = Except.error "IndexError" ∧
    divide_equally (List.range 10) (-1 : Int) = Except.ok ([] : List (List Nat)) := by
  refine ⟨?_, fun items => by simp [divide_equally], rfl, rfl⟩
  unfold divide_equally
  have h0 : ¬ (maxLen = 0) := by omega
  have hfd : Int.fdiv (maxLen - 1) maxLen = 0 := by
    rw [Int.fdiv_eq_ediv _ (by omega)]
    exact Int.ediv_eq_zero_of_lt (by omega) (by omega)
  simp [h0, hfd]

/-- Witness for the amended C9 at `max_len = 1`. -/
theorem claim_C9_amended_witness :
    divide_equally ([] : List Config) (1 : Int) = Except.error "ZeroDivisionError" :=
  (claim_C9_amended 1 (by norm_num)).1

/-- Helper: length of a `flatMap` whose blocks all have the same length. -/
theorem length_flatMap_const {α β : Type} (f : α → List β) (n : Nat)
    (hf : ∀ a, (f a).length = n) :
    ∀ A : List α, (A.flatMap f).length = A.length * n := by
  intro A
  induction A with
  | nil => simp
  | cons a t ih => simp [hf, ih, Nat.succ_mul, Nat.add_comm]

/-- Helper: indexing into a `flatMap` whose blocks all have the same
length: block-major position `i * n + j` reads block `i` at offset `j`. -/
theorem getElem?_flatMap_const {α β : Type} (f : α → List β) (n : Nat)
    (hf : ∀ a, (f a).length = n) :
    ∀ (A : List α) (i j : Nat), i < A.length → j < n →
      (A.flatMap f)[i * n + j]? = A[i]?.bind fun a => (f a)[j]? := by
  intro A
  induction A with
  | nil => intro i j hi _; exact absurd hi (by simp)
  | cons a t ih =>
    intro i j hi hj
    cases i with
    | zero =>
      rw [List.flatMap_cons, Nat.zero_mul, Nat.zero_add,
        List.getElem?_append_left (by rw [hf]; exact hj)]
      simp
    | succ i =>
      have harith : (i + 1) * n + j = (f a).length + (i * n + j) := by
        rw [hf, Nat.succ_mul]; omega
      rw [List.flatMap_cons, harith,
        List.getElem?_append_right (by omega), Nat.add_sub_cancel_left]
      simpa using ih i j (by simpa using hi) hj

/-- Claim C2: for all lists of Configurations A and B, `cross(A, B)` yields
exactly `len(A) * len(B)` Configurations, and the element at position
`i*len(B)+j` has name `A[i].name + "-" + B[j].name` and argument list
`A[i].args ++ B[j].args` (outer loop over A, inner over B). -/
theorem claim_C2_cross_pair (A B : List Config) (i j : Nat)
    (hi : i < A.length) (hj : j < B.length) :
    ∃ L, cross [A, B] = Except.ok L ∧
      L.length = A.length * B.length ∧
      L[i * B.length + j]? = (A[i]?.bind fun a => B[j]?.map fun b =>
        { name := a.name ++ "-" ++ b.name, args := a.args ++ b.args }) := by
  have hf : ∀ c : Config, ((B.map fun rc => c + rc)).length = B.length := by
    intro c; simp
  refine ⟨A.flatMap fun c => B.map fun rc => c + rc, ?_, ?_, ?_⟩
  · rfl
  · exact length_flatMap_const _ B.length hf A
  · rw [getElem?_flatMap_const _ B.length hf A i j hi hj,
      List.getElem?_eq_getElem hi]
    simp only [Option.bind_some, List.getElem?_map]
    rw [List.getElem?_eq_getElem hj]
    rfl

/-- Witness for C2 on two concrete lists at position `1*1+0`. -/
theorem claim_C2_cross_pair_witness :
    ∃ L, cross [[⟨"a", ["1"]⟩, ⟨"b", ["2"]⟩], [⟨"c", ["3"]⟩]] = Except.ok L ∧
      L.length = 2 ∧ L[1]? = some (⟨"b-c", ["2", "3"]⟩ : Config) := by
  obtain ⟨L, h1, h2, h3⟩ :=
    claim_C2_cross_pair [⟨"a", ["1"]⟩, ⟨"b", ["2"]⟩] [⟨"c", ["3"]⟩] 1 0
      (by decide) (by decide)
  exact ⟨L, h1, h2, h3⟩

/-- Helper: `divideLoop` over nonnegative state agrees with the natural
version. -/
theorem divideLoop_eq_nat {α : Type} (n g : Nat) :
    ∀ (k : Nat) (xs : List α) (r : Nat),
      divideLoop (n : Int) (g : Int) k xs (r : Int) =
        divideLoopNat (n / g) k xs r := by
  intro k
  induction k with
  | zero => intro xs r; rfl
  | succ k ih =>
    intro xs r
    have hfd : Int.fdiv (n : Int) (g : Int) = ((n / g : Nat) : Int) := by
      rw [Int.fdiv_eq_ediv _ (Int.natCast_nonneg g), Int.ofNat_ediv]
    by_cases hr : r = 0
    · subst hr
      simp only [divideLoop, divideLoopNat, hfd, Nat.cast_zero, ne_eq,
        not_true_eq_false, if_false, ite_false, Int.toNat_natCast]
      have h0 := ih (xs.drop (n / g)) 0
      simp only [Nat.cast_zero] at h0
      rw [h0]
    · have hrz : ¬ ((r : Int) = 0) := by exact_mod_cast hr
      have hcast1 : ((n / g : Nat) : Int) + 1 = ((n / g + 1 : Nat) : Int) := by
        push_cast; ring
      have hcast2 : ((r : Nat) : Int) - 1 = ((r - 1 : Nat) : Int) := by
        have : 1 ≤ r := Nat.one_le_iff_ne_zero.mpr hr
        push_cast [this]; ring
      simp only [divideLoop, divideLoopNat, hfd, ne_eq, hrz, not_false_eq_true,
        if_true, ite_true, hr, hcast1, hcast2, Int.toNat_natCast]
      rw [ih]

/-- Helper: specification of the natural partition loop: with `k` rounds,
surplus `r ≤ k`, and `k * q + r` items, it yields `k` groups which
concatenate to the input, the first `r` of size `q + 1` and the rest of
size `q`. -/
theorem divideLoopNat_spec {α : Type} (q : Nat) :
    ∀ (k : Nat) (xs : List α) (r : Nat), r ≤ k → xs.length = k * q + r →
      (divideLoopNat q k xs r).length = k ∧
      (divideLoopNat q k xs r).flatten = xs ∧
      (∀ i, i < k → ((divideLoopNat q k xs r)[i]?.map List.length) =
        some (if i < r then q + 1 else q)) := by
  intro k
  induction k with
  | zero =>
    intro xs r hr hlen
    have hr0 : r = 0 := by omega
    subst hr0
    have hxs : xs = [] := List.length_eq_zero.mp (by simpa using hlen)
    exact ⟨rfl, by simp [divideLoopNat, hxs], fun i hi => absurd hi (by omega)⟩
  | succ k ih =>
    intro xs r hr hlen
    rw [Nat.succ_mul] at hlen
    by_cases hrz : r = 0
    · subst hrz
      have hqle : q ≤ xs.length := by omega
      have hlen' : (xs.drop q).length = k * q + 0 := by
        rw [List.length_drop]; omega
      obtain ⟨h1, h2, h3⟩ := ih (xs.drop q) 0 (by omega) hlen'
      refine ⟨?_, ?_, ?_⟩
      · simp only [divideLoopNat, ne_eq, not_true_eq_false, if_false, ite_false]
        simp [h1]
      · simp only [divideLoopNat, ne_eq, not_true_eq_false, if_false, ite_false]
        simp [h2]
      · intro i hi
        cases i with
        | zero =>
          simp only [divideLoopNat, ne_eq, not_true_eq_false, if_false, ite_false]
          simp [List.length_take, Nat.min_eq_left hqle]
        | succ i =>
          simp only [divideLoopNat, ne_eq, not_true_eq_false, if_false, ite_false]
          have := h3 i (by omega)
          simpa using this
    · have hr1 : 1 ≤ r := Nat.one_le_iff_ne_zero.mpr hrz
      have hqle : q + 1 ≤ xs.length := by omega
      have hlen' : (xs.drop (q + 1)).length = k * q + (r - 1) := by
        rw [List.length_drop]; omega
      obtain ⟨h1, h2, h3⟩ := ih (xs.drop (q + 1)) (r - 1) (by omega) hlen'
      refine ⟨?_, ?_, ?_⟩
      · simp only [divideLoopNat, ne_eq, hrz, not_false_eq_true, if_true, ite_true]
        simp [h1]
      · simp only [divideLoopNat, ne_eq, hrz, not_false_eq_true, if_true, ite_true]
        simp [h2]
      · intro i hi
        cases i with
        | zero =>
          simp only [divideLoopNat, ne_eq, hrz, not_false_eq_true, if_true, ite_true]
          have hposr : 0 < r := hr1
          simp [List.length_take, Nat.min_eq_left hqle, hposr]
        | succ i =>
          simp only [divideLoopNat, ne_eq, hrz, not_false_eq_true, if_true, ite_true,
            List.getElem?_cons_succ]
          have h3i := h3 i (by omega)
          rw [h3i]
          have hiff : (i < r - 1) ↔ (i + 1 < r) := by omega
          simp [hiff]

/-- Helper: on a non-empty input and positive bound, `_divide_equally`
succeeds and runs the natural loop with `g = ceil(n / m)` groups. -/
theorem divide_equally_eq_loopNat {α : Type} (items : List α) (m : Nat)
    (hne : items ≠ []) (hm : 1 ≤ m) :
    divide_equally items (m : Int) =
      Except.ok (divideLoopNat (items.length / ((items.length + m - 1) / m))
        ((items.length + m - 1) / m) items
        (items.length % ((items.length + m - 1) / m))) := by
  have hn : 1 ≤ items.length := List.length_pos.mpr hne
  set n := items.length with hn_def
  set g := (n + m - 1) / m with hg_def
  have hg1 : 1 ≤ g := (Nat.one_le_div_iff (by omega)).mpr (by omega)
  have hm0 : ¬ ((m : Int) = 0) := by exact_mod_cast Nat.one_le_iff_ne_zero.mp hm
  have hcast : ((n : Int) + (m : Int) - 1) = ((n + m - 1 : Nat) : Int) := by
    omega
  have hnl : Int.fdiv ((n : Int) + (m : Int) - 1) (m : Int) = (g : Int) := by
    rw [hcast, Int.fdiv_eq_ediv _ (Int.natCast_nonneg m), hg_def, Int.ofNat_ediv]
  have hg0 : ¬ ((g : Int) = 0) := by exact_mod_cast Nat.one_le_iff_ne_zero.mp hg1
  have hfm : Int.fmod (n : Int) (g : Int) = ((n % g : Nat) : Int) := by
    rw [Int.fmod_eq_emod _ (Int.natCast_nonneg g), Int.ofNat_emod]
  unfold divide_equally
  simp only [← hn_def, hm0, if_false, ite_false, hnl, hg0, hfm,
    Int.toNat_natCast]
  rw [divideLoop_eq_nat]

/-- Claim C1: for every non-empty list of items of length n and every
`per_job`/`max_len ≥ 1`, `_divide_equally(items, max_len)` yields exactly
`ceil(n/max_len)` groups whose concatenation equals the input in original
order, whose sizes differ by at most 1 and never exceed `max_len`, with the
surplus `n mod numGroups` distributed to the earliest groups; in
particular `_divide_equally(range(10), 4)` yields
`[[0,1,2,3],[4,5,6],[7,8,9]]`. -/
theorem claim_C1_divide_equally {α : Type} (items : List α) (maxLen : Nat)
    (hne : items ≠ []) (hm : 1 ≤ maxLen) :
    (∃ gs, divide_equally items (maxLen : Int) = Except.ok gs ∧
      gs.length = (items.length + maxLen - 1) / maxLen ∧
      gs.flatten = items ∧
      (∀ gl ∈ gs, gl.length ≤ maxLen) ∧
      (∀ i, i < gs.length → (gs[i]?.map List.length) =
        some (if i < items.length % gs.length then items.length / gs.length + 1
              else items.length / gs.length)) ∧
      (∀ gl1 ∈ gs, ∀ gl2 ∈ gs, gl1.length ≤ gl2.length + 1)) ∧
    divide_equally (List.range 10) (4 : Int) =
      Except.ok [[0,1,2,3],[4,5,6],[7,8,9]] := by
  refine ⟨?_, rfl⟩
  have hn : 1 ≤ items.length := List.length_pos.mpr hne
  set n := items.length with hn_def
  set g := (n + maxLen - 1) / maxLen with hg_def
  have hg1 : 1 ≤ g := (Nat.one_le_div_iff (by omega)).mpr (by omega)
  set q := n / g with hq_def
  set r := n % g with hr_def
  have hrg : r < g := Nat.mod_lt _ (by omega)
  have hsum : g * q + r = n := Nat.div_add_mod n g
  have hdm := Nat.div_add_mod (n + maxLen - 1) maxLen
  have hmlt : (n + maxLen - 1) % maxLen < maxLen := Nat.mod_lt _ (by omega)
  have hng : n ≤ g * maxLen := by
    obtain ⟨P, hP⟩ : ∃ P, P = maxLen * g := ⟨_, rfl⟩
    rw [← hP] at hdm
    rw [Nat.mul_comm, ← hP]
    omega
  have hq_le : q ≤ maxLen := Nat.div_le_of_le_mul hng
  have hq1_le : 0 < r → q + 1 ≤ maxLen := by
    intro hr0
    by_contra hcon
    have hqm : maxLen ≤ q := by omega
    have hmul : n ≤ g * q :=
      Nat.le_trans hng (Nat.mul_le_mul_left g hqm)
    obtain ⟨Q, hQ⟩ : ∃ Q, Q = g * q := ⟨_, rfl⟩
    rw [← hQ] at hsum hmul
    omega
  have heq := divide_equally_eq_loopNat items maxLen hne hm
  obtain ⟨h1, h2, h3⟩ :=
    divideLoopNat_spec q g items r (Nat.le_of_lt hrg) hsum.symm
  have hlen_mem : ∀ gl ∈ divideLoopNat q g items r,
      gl.length = q ∨ (gl.length = q + 1 ∧ 0 < r) := by
    intro gl hmem
    obtain ⟨idx, hidx⟩ := List.mem_iff_getElem?.mp hmem
    have hlt : idx < (divideLoopNat q g items r).length := by
      obtain ⟨hb, -⟩ := List.getElem?_eq_some_iff.mp hidx
      exact hb
    rw [h1] at hlt
    have hsz := h3 idx hlt
    rw [hidx] at hsz
    simp only [Option.map_some'] at hsz
    have hsz' : gl.length = if idx < r then q + 1 else q := Option.some.inj hsz
    by_cases hir : idx < r
    · right; rw [hsz', if_pos hir]; exact ⟨rfl, by omega⟩
    · left; rw [hsz', if_neg hir]
  refine ⟨divideLoopNat q g items r, heq, h1, h2, ?_, ?_, ?_⟩
  · intro gl hmem
    rcases hlen_mem gl hmem with hc | ⟨hc, hr0⟩
    · omega
    · have := hq1_le hr0; omega
  · intro i hi
    rw [h1] at hi ⊢
    exact h3 i hi
  · intro gl1 hm1 gl2 hm2
    rcases hlen_mem gl1 hm1 with hc1 | ⟨hc1, -⟩ <;>
      rcases hlen_mem gl2 hm2 with hc2 | ⟨hc2, -⟩ <;> omega

/-- Witness for C1 on `range 10` with `max_len = 4`. -/
theorem claim_C1_divide_equally_witness :
    (∃ gs, divide_equally (List.range 10) ((4 : Nat) : Int) = Except.ok gs ∧
      gs.length = 3 ∧
      gs.flatten = List.range 10 ∧
      (∀ gl ∈ gs, gl.length ≤ 4) ∧
      (∀ i, i < gs.length → (gs[i]?.map List.length) =
        some (if i < 10 % gs.length then 10 / gs.length + 1
              else 10 / gs.length)) ∧
      (∀ gl1 ∈ gs, ∀ gl2 ∈ gs, gl1.length ≤ gl2.length + 1)) ∧
    divide_equally (List.range 10) (4 : Int) =
      Except.ok [[0,1,2,3],[4,5,6],[7,8,9]] :=
  claim_C1_divide_equally (List.range 10) 4 (by decide) (by decide)

/-- Helper: both branches of `run_configs` produce the same model trace and
counter update (the bounded path differs from the unbounded one only in
scheduling, which the model abstracts). -/
theorem run_configs_eq_all (st : RunState) (configs : List Config) (P : Nat)
    (s : Stats) : run_configs st configs P s = run_configs_all st configs s := by
  by_cases h : P = 0 <;> simp [run_configs, run_configs_all, h]

/-- Claim C7: for every finite sequence of n configurations, by the time
`run_configs` returns the ran counter has increased by exactly n, in both
the unbounded path (`P = 0`, dispatching to `_run_configs_all`) and the
bounded path (`P > 0`, incrementing at spawn time in the admitting loop). -/
theorem claim_C7_ran_counter (st : RunState) (configs : List Config)
    (P : Nat) (s : Stats) :
    ((run_configs st configs P s).1).ran = s.ran + configs.length ∧
    run_configs st configs 0 s = run_configs_all st configs s := by
  constructor
  · rw [run_configs_eq_all]
    simp [run_configs_all]
  · simp [run_configs]

/-- Claim C4: in a live (non-dry-run) `submit_configs` call, the main job
for group index i is named `<name>.<two-digit zero-padded i>`; when an
after-command template is configured, the after-script is submitted as a
separate job named `<job_name>a` with a queue dependency expression
`afterany` on the whitespace-trimmed job identifier printed by the main
submission, and when persistence is requested the scripts are written to
`<job_name>.pbs` and `<job_name>a.pbs`. -/
theorem claim_C4_live_submission (st : RunState) (qids : Nat → String)
    (configs : List Config) (name : String) (perJob : Int) (s : Stats)
    (groups : List (List Config)) (ac : List String)
    (hdry : st.dryRunMode = false)
    (hac : st.settings.afterCmd = some ac)
    (hgroups : divide_equally configs perJob = Except.ok groups) :
    submit_configs st qids configs name perJob true s =
      Except.ok
        ({ s with
            submitted := s.submitted + (groups.map List.length).sum,
            jobs := s.jobs + groups.length },
         Effect.makeDirs (makeDirsPath st.settings.prefixVal) ::
           groups.enum.flatMap fun p =>
             submit_one_group st name true (qids p.1) p.1 p.2) ∧
    (∀ i job jid, submit_one_group st name true jid i job =
      [Effect.writeFile (name ++ "." ++ format02d i ++ ".pbs")
         (renderPbs st.settings job),
       Effect.writeFile (name ++ "." ++ format02d i ++ "a.pbs")
         (pbsHeader ++ "\n" ++ afterCmdline st.settings job),
       Effect.launchStdin
         [st.settings.submitCommand, "-N", name ++ "." ++ format02d i, "-"]
         (renderPbs st.settings job),
       Effect.printOut (jid ++ "\n"),
       Effect.launchStdin
         [st.settings.submitCommand, "-W", "depend=afterany:" ++ jid.trim,
          "-N", name ++ "." ++ format02d i ++ "a", "-"]
         (pbsHeader ++ "\n" ++ afterCmdline st.settings job)]) ∧
    (∀ i, i < 100 → (format02d i).length = 2) := by
  refine ⟨?_, ?_, ?_⟩
  · simp [submit_configs, hgroups]
  · intro i job jid
    simp [submit_one_group, hdry, hac]
  · decide

/-- Witness for C4: one configuration, one group, queue answering
`" job42 "`. -/
theorem claim_C4_live_submission_witness :
    submit_configs liveAfterState (fun _ => " job42 ") [⟨"a", []⟩] "n" 1 true
        ⟨0, 0, 0⟩ =
      Except.ok ({ ran := 0, submitted := 1, jobs := 1 },
        Effect.makeDirs (makeDirsPath liveAfterState.settings.prefixVal) ::
          [[(⟨"a", []⟩ : Config)]].enum.flatMap fun p =>
            submit_one_group liveAfterState "n" true " job42 " p.1 p.2) :=
  (claim_C4_live_submission liveAfterState (fun _ => " job42 ") [⟨"a", []⟩]
    "n" 1 ⟨0, 0, 0⟩ [[⟨"a", []⟩]] ["echo", "%(config_names)s"]
    rfl rfl rfl).1

/-- Claim C5, counterexample: a dry-run `submit_configs` call does not
leave the counters unchanged — rendering happens before the dry-run test,
so one configuration in one group yields `submitted = 1`, `jobs = 1`. -/
theorem claim_C5_counterexample :
    (submit_configs dryState (fun _ => "") [⟨"a", []⟩] "n" 1 true
        ⟨0, 0, 0⟩).map (fun res => (res.1.submitted, res.1.jobs)) =
      Except.ok (1, 1) := rfl

/-- Claim C5 as amended: after any `submit_configs` call whose partition
succeeds, `submitted` has increased by the total size of the rendered
groups (one per configuration included in a rendered group) and `jobs` by
one per rendered group — in live and dry-run mode alike, because
`count_subs` and the `jobs` increment run while each group is rendered,
before the dry-run test; a dry-run call therefore does NOT leave the
counters unchanged. -/
theorem claim_C5_amended (st : RunState) (qids : Nat → String)
    (configs : List Config) (name : String) (perJob : Int) (save : Bool)
    (s : Stats) (groups : List (List Config))
    (hgroups : divide_equally configs perJob = Except.ok groups) :
    ∃ effs, submit_configs st qids configs name perJob save s =
      Except.ok ({ s with
          submitted := s.submitted + (groups.map List.length).sum,
          jobs := s.jobs + groups.length }, effs) :=
  ⟨Effect.makeDirs (makeDirsPath st.settings.prefixVal) ::
      groups.enum.flatMap fun p => submit_one_group st name save (qids p.1) p.1 p.2,
    by simp [submit_configs, hgroups]⟩

/-- Witness for the amended C5: the dry-run call of the counterexample. -/
theorem claim_C5_amended_witness :
    ∃ effs, submit_configs dryState (fun _ => "") [⟨"a", []⟩] "n" 1 true
        ⟨0, 0, 0⟩ = Except.ok ({ ran := 0, submitted := 1, jobs := 1 }, effs) := by
  obtain ⟨effs, h⟩ := claim_C5_amended dryState (fun _ => "") [⟨"a", []⟩]
    "n" 1 true ⟨0, 0, 0⟩ [[⟨"a", []⟩]] rfl
  exact ⟨effs, h⟩

/-- Claim C6, counterexample: in dry-run mode the executor path still
performs an external process launch — `dummy_Popen` launches `['true']` for
the no-op wait — so "zero external process launches" fails. -/
theorem claim_C6_counterexample :
    Effect.launch ["true"] ∈ (run_configs_all dryState [⟨"a", []⟩] ⟨0, 0, 0⟩).2 := by
  simp [run_configs_all, dryState, launchEffects, defaultSettings]

/-- Helper: any effect in a successful submit trace is the directory
creation or arises from one group's submission step. -/
theorem mem_submit_trace (st : RunState) (qids : Nat → String)
    (configs : List Config) (name : String) (perJob : Int) (save : Bool)
    (s : Stats) (res : Stats × List Effect) (e : Effect)
    (hres : submit_configs st qids configs name perJob save s = Except.ok res)
    (he : e ∈ res.2) :
    e = Effect.makeDirs (makeDirsPath st.settings.prefixVal) ∨
    ∃ jid i job, e ∈ submit_one_group st name save jid i job := by
  rcases hg : divide_equally configs perJob with err | groups
  · rw [submit_configs, hg] at hres
    exact Except.noConfusion hres
  · rw [submit_configs, hg] at hres
    injection hres with hres2
    rw [← hres2] at he
    simp only [List.mem_cons] at he
    rcases he with he | he
    · exact Or.inl he
    · obtain ⟨p, -, hmem⟩ := List.mem_flatMap.mp he
      exact Or.inr ⟨qids p.1, p.1, p.2, hmem⟩

/-- Helper: any effect in the executor trace is the directory creation or
comes from some launch of the current process launcher. -/
theorem mem_run_all_trace (st : RunState) (configs : List Config) (s : Stats)
    (e : Effect) (he : e ∈ (run_configs_all st configs s).2) :
    e = Effect.makeDirs (makeDirsPath st.settings.prefixVal) ∨
    ∃ args, e ∈ launchEffects st args := by
  rcases hac : st.settings.afterCmd with - | ac <;>
    simp only [run_configs_all, hac, List.mem_cons, List.mem_append,
      List.not_mem_nil, or_false] at he
  · rcases he with he | he
    · exact Or.inl he
    · obtain ⟨c, -, hmem⟩ := List.mem_flatMap.mp he
      exact Or.inr ⟨_, hmem⟩
  · rcases he with (he | he) | he
    · exact Or.inl he
    · obtain ⟨c, -, hmem⟩ := List.mem_flatMap.mp he
      exact Or.inr ⟨_, hmem⟩
    · exact Or.inr ⟨_, he⟩

/-- Claim C6 as amended: in dry-run mode the submitter performs no process
launch and no file write (its trace is directory creation and printing
only), and the executor writes no file and launches no real command — every
launch it performs is the no-op `['true']` of `dummy_Popen`. -/
theorem claim_C6_amended (st : RunState) (qids : Nat → String)
    (configs : List Config) (name : String) (perJob : Int) (save : Bool)
    (P : Nat) (s : Stats)
    (hdry : st.dryRunMode = true) (hdummy : st.popenIsDummy = true) :
    (∀ res, submit_configs st qids configs name perJob save s = Except.ok res →
      ∀ e ∈ res.2, e.isLaunch = false ∧ e.isWrite = false) ∧
    (∀ e ∈ (run_configs st configs P s).2,
      e.isWrite = false ∧ (e.isLaunch = true → e = Effect.launch ["true"])) := by
  constructor
  · intro res hres e he
    rcases mem_submit_trace st qids configs name perJob save s res e hres he with
      hmd | ⟨jid, i, job, hmem⟩
    · subst hmd; exact ⟨rfl, rfl⟩
    · simp only [submit_one_group, hdry, if_true, ite_true, List.mem_cons,
        List.not_mem_nil, or_false] at hmem
      rcases hmem with he2 | he2
      · subst he2; exact ⟨rfl, rfl⟩
      · subst he2; exact ⟨rfl, rfl⟩
  · intro e he
    rw [run_configs_eq_all] at he
    rcases mem_run_all_trace st configs s e he with hmd | ⟨args, hmem⟩
    · subst hmd; exact ⟨rfl, by intro h; cases h⟩
    · simp only [launchEffects, hdummy, if_true, ite_true, List.mem_cons,
        List.not_mem_nil, or_false] at hmem
      rcases hmem with he2 | he2
      · subst he2; exact ⟨rfl, by intro h; cases h⟩
      · subst he2; exact ⟨rfl, fun _ => rfl⟩

/-- Witness for the amended C6 on a dry-run state with one configuration. -/
theorem claim_C6_amended_witness :
    (∀ res, submit_configs dryState (fun _ => "") [⟨"a", []⟩] "n" 1 true
        ⟨0, 0, 0⟩ = Except.ok res →
      ∀ e ∈ res.2, e.isLaunch = false ∧ e.isWrite = false) ∧
    (∀ e ∈ (run_configs dryState [⟨"a", []⟩] 0 ⟨0, 0, 0⟩).2,
      e.isWrite = false ∧ (e.isLaunch = true → e = Effect.launch ["true"])) :=
  claim_C6_amended dryState (fun _ => "") [⟨"a", []⟩] "n" 1 true 0 ⟨0, 0, 0⟩
    rfl rfl

end RunUtil
